import Mathlib

/-!
Shallow embedding of the NeRF model orchestration layer (`models/nerf.py`)
of the instant-nsr-pl repository.

External collaborators (the geometry and texture networks, the nerfacc
occupancy-grid estimator's ray sampler, the ray/AABB intersector, and the
grid-update routine) are kept abstract: they are parameters of the model.
The volume-rendering weight formula `w_i = T_i * alpha_i` (with the
transmittance `T` accumulated per ray) is embedded with the per-sample
opacity function `alphaFn` abstract, standing for `1 - exp(-sigma * delta)`
computed by the external library.  All float arithmetic is embedded in `ℚ`.
-/

namespace NerfModel

/-- 3-vector of rationals (positions, directions, RGB colours). -/
abbrev Vec3 : Type := ℚ × ℚ × ℚ

/-- Scalar-vector product, `a • v` componentwise. -/
def smul3 (a : ℚ) (v : Vec3) : Vec3 := (a * v.1, a * v.2.1, a * v.2.2)

/-- A ray: origin and direction, the 6 floats per ray of the ray batch. -/
abbrev Ray : Type := Vec3 × Vec3

/-- Point along a ray: `origin + direction * t`, componentwise. -/
def posAlong (o d : Vec3) (t : ℚ) : Vec3 :=
  (o.1 + d.1 * t, o.2.1 + d.2.1 * t, o.2.2 + d.2.2 * t)

/-- The scene configuration fields read by `NeRFModel` (`self.config.*`). -/
structure Config where
  radius : ℚ
  learned_background : Bool
  num_samples_per_ray : ℕ
  grid_prune : Bool
  randomized : Bool
  ray_chunk : ℕ
deriving DecidableEq

/-- Contraction mode set on the geometry (`self.contraction_type`). -/
inductive Contraction where
  | AABB
  | UN_BOUNDED_SPHERE
deriving DecidableEq

/-- The rendering parameters derived at `setup` time. -/
structure Derived where
  occupancy_grid_res : ℕ
  near_plane : ℚ
  far_plane : ℚ
  cone_angle : ℚ
  render_step_size : ℚ
  contraction_type : Contraction
deriving DecidableEq

/-- `NeRFModel.setup`, parameter-derivation part (nerf.py lines 21-32).
`coneUB` stands for the float value `10**(log10(1e10)/num_samples_per_ray) - 1`
computed for the unbounded branch (irrational, never inspected by the model). -/
def resolveDerived (cfg : Config) (coneUB : ℚ) : Derived :=
  if cfg.learned_background then
    { occupancy_grid_res := 256
      near_plane := 0
      far_plane := 1e10
      cone_angle := coneUB
      render_step_size := 0.01
      contraction_type := .UN_BOUNDED_SPHERE }
  else
    { occupancy_grid_res := 128
      near_plane := 0
      far_plane := 10.0 * cfg.radius
      cone_angle := 0
      render_step_size := 1.732 * 2 * cfg.radius / (cfg.num_samples_per_ray : ℚ)
      contraction_type := .AABB }

/-- The `scene_aabb` buffer: the ±radius cube as 6 floats (nerf.py line 19). -/
def scene_aabb (cfg : Config) : List ℚ :=
  [-cfg.radius, -cfg.radius, -cfg.radius, cfg.radius, cfg.radius, cfg.radius]

/-- State of the external `OccGridEstimator`'s grid: per-cell float occupancy
(`occs`) and boolean occupancy (`binaries`). -/
structure OccGrid where
  occs : List ℚ
  binaries : List Bool
deriving DecidableEq

/-- The grid after `occs.fill_(True); binaries.fill_(True)`: every cell of the
`res³`-cell grid occupied. -/
def fullGrid (res : ℕ) : OccGrid :=
  { occs := List.replicate (res ^ 3) 1
    binaries := List.replicate (res ^ 3) true }

/-- The mutable state of the model owned by this module: configuration, the
estimator's grid, and the `randomized` flag. -/
structure ModelState where
  cfg : Config
  coneUB : ℚ
  grid : OccGrid
  randomized : Bool

/-- `NeRFModel.setup` (nerf.py lines 16-45): the estimator is created with an
externally-initialised grid `g0`; when pruning is disabled both grid buffers
are filled with `True`. -/
def setup (cfg : Config) (coneUB : ℚ) (g0 : OccGrid) : ModelState :=
  { cfg := cfg
    coneUB := coneUB
    grid := if cfg.grid_prune then g0
            else fullGrid (resolveDerived cfg coneUB).occupancy_grid_res
    randomized := cfg.randomized }

/-- `occ_eval_fn` (nerf.py lines 51-54): density times the render step size,
the first-order Taylor approximation of `1 - exp(-density * step)`. -/
def occ_eval_fn {F : Type} (geometry : Vec3 → ℚ × F) (render_step_size : ℚ)
    (x : Vec3) : ℚ :=
  (geometry x).1 * render_step_size

/-- `NeRFModel.update_step` (nerf.py lines 47-57).  The external
`estimator.update_every_n_steps` is abstract (`updateFn`); it is invoked, with
`occ_eval_fn` as the density callback, only when training with pruning on. -/
def update_step {F : Type} (geometry : Vec3 → ℚ × F)
    (updateFn : ℕ → (Vec3 → ℚ) → OccGrid → OccGrid)
    (training : Bool) (_epoch global_step : ℕ) (s : ModelState) : ModelState :=
  if training && s.cfg.grid_prune then
    { s with grid := (updateFn global_step
        (occ_eval_fn geometry (resolveDerived s.cfg s.coneUB).render_step_size)
        s.grid) }
  else s

/-- `NeRFModel.train` (nerf.py lines 157-159): toggles the stratified flag. -/
def train_mode (s : ModelState) (mode : Bool) : ModelState :=
  { s with randomized := mode && s.cfg.randomized }

/-- `NeRFModel.eval` (nerf.py lines 161-163). -/
def eval_mode (s : ModelState) : ModelState :=
  { s with randomized := false }

/-- The arguments handed to the external estimator's sampler for one ray of
the batch (the batched `estimator.sampling` call of nerf.py lines 96-107,
viewed per ray: nerfacc marches each ray independently). -/
structure EstArgs where
  o : Vec3
  d : Vec3
  sigma : Option (ℚ → ℚ → ℚ)
  near : ℚ
  far : ℚ
  tbound : Option (ℚ × ℚ)
  step : ℚ
  stratified : Bool
  cone : ℚ
  alpha_thre : ℚ

/-- All collaborators of one forward pass: configuration, the geometry and
texture networks, the estimator's per-ray sampler, the ray/AABB intersector,
the per-sample opacity `alphaFn` (standing for `1 - exp(-sigma*delta)`), the
stratified flag and the externally-set background colour. -/
structure Ctx (F : Type) where
  cfg : Config
  coneUB : ℚ
  geometry : Vec3 → ℚ × F
  texture : F → Vec3 → Vec3
  est : EstArgs → List (ℚ × ℚ)
  raia : Ray → List ℚ → ℚ → ℚ → ℚ × ℚ × Bool
  alphaFn : ℚ → ℚ → ℚ
  randomized : Bool
  bg : Vec3

/-- Derived parameters of a forward context. -/
def Ctx.drv {F : Type} (ctx : Ctx F) : Derived :=
  resolveDerived ctx.cfg ctx.coneUB

/-- `sigma_fn` (nerf.py lines 67-73) restricted to one ray: density of the
geometry at the midpoint of a sample interval along the ray. -/
def sigmaAlong {F : Type} (geometry : Vec3 → ℚ × F) (o d : Vec3)
    (t_start t_end : ℚ) : ℚ :=
  (geometry (posAlong o d ((t_start + t_end) / 2))).1

/-- The sampler arguments built by `forward_` for one ray (nerf.py lines
84-107): AABB-intersection bounds only for bounded scenes, the density
callback only when pruning is on, and `alpha_thre = 0` always. -/
def perRayArgs {F : Type} (ctx : Ctx F) (ray : Ray) : EstArgs :=
  { o := ray.1
    d := ray.2
    sigma := if ctx.cfg.grid_prune
             then some (sigmaAlong ctx.geometry ray.1 ray.2) else none
    near := ctx.drv.near_plane
    far := ctx.drv.far_plane
    tbound := if ctx.cfg.learned_background then none
              else some ((ctx.raia ray (scene_aabb ctx.cfg)
                            ctx.drv.near_plane ctx.drv.far_plane).1,
                         (ctx.raia ray (scene_aabb ctx.cfg)
                            ctx.drv.near_plane ctx.drv.far_plane).2.1)
    step := ctx.drv.render_step_size
    stratified := ctx.randomized
    cone := ctx.drv.cone_angle
    alpha_thre := 0 }

/-- Intervals the estimator returns for one ray. -/
def raySamples {F : Type} (ctx : Ctx F) (ray : Ray) : List (ℚ × ℚ) :=
  ctx.est (perRayArgs ctx ray)

/-- The flat `(ray_index, t_start, t_end)` sample list of the batched
`estimator.sampling` call: rays sampled independently, results concatenated
in ray order and tagged with the ray index. -/
def rawSamples {F : Type} (ctx : Ctx F) (rays : List Ray) :
    List (ℕ × ℚ × ℚ) :=
  (rays.enum).flatMap fun p => (raySamples ctx p.2).map fun q => (p.1, q)

/-- Modelled from the spec: `validate_empty_rays` (models/utils.py, not under
src/) — repairs an empty sample batch so that downstream tensor operations
still receive well-shaped arrays: a zero-length dummy sample on ray 0 is
inserted when the sampler returned no samples at all. -/
def validate_empty_rays (samples : List (ℕ × ℚ × ℚ)) : List (ℕ × ℚ × ℚ) :=
  if samples = [] then [(0, 0, 0)] else samples

/-- Midpoint of a flat sample's interval (nerf.py line 114). -/
def sampleMid (s : ℕ × ℚ × ℚ) : ℚ := (s.2.1 + s.2.2) / 2

/-- Position of a flat sample (`rays_o[ray_indices] + rays_d[ray_indices] *
midpoints`, nerf.py lines 112-115). -/
def samplePos (rays : List Ray) (s : ℕ × ℚ × ℚ) : Vec3 :=
  posAlong (rays.getD s.1 ((0,0,0),(0,0,0))).1
           (rays.getD s.1 ((0,0,0),(0,0,0))).2 (sampleMid s)

/-- Density of the geometry at a flat sample (nerf.py line 118). -/
def sampleDensity {F : Type} (ctx : Ctx F) (rays : List Ray)
    (s : ℕ × ℚ × ℚ) : ℚ :=
  (ctx.geometry (samplePos rays s)).1

/-- Colour of the texture at a flat sample (nerf.py line 119): feature of the
geometry, view direction of the sample's ray; no clamping here. -/
def sampleRgb {F : Type} (ctx : Ctx F) (rays : List Ray)
    (s : ℕ × ℚ × ℚ) : Vec3 :=
  ctx.texture (ctx.geometry (samplePos rays s)).2
              (rays.getD s.1 ((0,0,0),(0,0,0))).2

/-- Per-sample opacity: `alphaFn` (standing for `1 - exp(-sigma*delta)`) at
the sample's density and interval length. -/
def sampleAlpha {F : Type} (ctx : Ctx F) (rays : List Ray)
    (s : ℕ × ℚ × ℚ) : ℚ :=
  ctx.alphaFn (sampleDensity ctx rays s) (s.2.2 - s.2.1)

/-- Transmittance-weighted blending over a flat `(ray_index, alpha)` list:
each sample's weight is the current transmittance of its ray times its alpha,
and the ray's transmittance is then scaled by `1 - alpha`. -/
def weightsAux : List (ℕ × ℚ) → (ℕ → ℚ) → List ℚ
  | [], _ => []
  | (r, a) :: rest, T =>
      T r * a :: weightsAux rest (fun r' => if r' = r then T r * (1 - a) else T r')

/-- Models `nerfacc.render_weight_from_density` (nerf.py lines 120-124):
`w_i = T_i * alpha_i` with `alpha_i = alphaFn sigma_i delta_i` and the
transmittance `T` accumulated per ray, initially 1. -/
def render_weight_from_density {F : Type} (ctx : Ctx F) (rays : List Ray)
    (samples : List (ℕ × ℚ × ℚ)) : List ℚ :=
  weightsAux (samples.map fun s => (s.1, sampleAlpha ctx rays s)) (fun _ => 1)

/-- Models the `nerfacc.accumulate_along_rays` scatter-add contract
(nerf.py lines 125-127): entry `r` is the sum of the tagged values whose ray
index is `r`. -/
def accumulate_along_rays {M : Type} [AddCommMonoid M]
    (vals : List (ℕ × M)) (n_rays : ℕ) : List M :=
  (List.range n_rays).map fun r =>
    ((vals.filter fun p => p.1 == r).map Prod.snd).sum

/-- The validated sample list of one forward pass (nerf.py lines 96-109). -/
def pipelineSamples {F : Type} (ctx : Ctx F) (rays : List Ray) :
    List (ℕ × ℚ × ℚ) :=
  validate_empty_rays (rawSamples ctx rays)

/-- The per-sample weights of one forward pass (nerf.py lines 120-124). -/
def pipelineWeights {F : Type} (ctx : Ctx F) (rays : List Ray) : List ℚ :=
  render_weight_from_density ctx rays (pipelineSamples ctx rays)

/-- Per-ray opacity (nerf.py line 125). -/
def pipelineOpacity {F : Type} (ctx : Ctx F) (rays : List Ray) : List ℚ :=
  accumulate_along_rays
    (((pipelineSamples ctx rays).map fun s => s.1).zip (pipelineWeights ctx rays))
    rays.length

/-- Per-ray depth (nerf.py line 126). -/
def pipelineDepth {F : Type} (ctx : Ctx F) (rays : List Ray) : List ℚ :=
  accumulate_along_rays
    (((pipelineSamples ctx rays).map fun s => s.1).zip
      (List.zipWith (· * ·) (pipelineWeights ctx rays)
        ((pipelineSamples ctx rays).map sampleMid)))
    rays.length

/-- Per-ray accumulated colour, before background compositing
(nerf.py line 127). -/
def pipelineCompRgb0 {F : Type} (ctx : Ctx F) (rays : List Ray) : List Vec3 :=
  accumulate_along_rays
    (((pipelineSamples ctx rays).map fun s => s.1).zip
      (List.zipWith smul3 (pipelineWeights ctx rays)
        ((pipelineSamples ctx rays).map (sampleRgb ctx rays))))
    rays.length

/-- The output dictionary of `forward_` (nerf.py lines 130-144); the training
extras are empty lists outside training. -/
structure RenderOut where
  comp_rgb : List Vec3
  opacity : List ℚ
  depth : List ℚ
  rays_valid : List Bool
  num_samples : ℕ
  weights : List ℚ
  points : List ℚ
  intervals : List ℚ
  ray_indices : List ℕ
deriving DecidableEq

/-- `NeRFModel.forward_` (nerf.py lines 63-146). -/
def forward_ {F : Type} (ctx : Ctx F) (training : Bool) (rays : List Ray) :
    RenderOut :=
  let samples := pipelineSamples ctx rays
  let w := pipelineWeights ctx rays
  let opacity := pipelineOpacity ctx rays
  { comp_rgb := List.zipWith (fun c o => c + smul3 (1 - o) ctx.bg)
      (pipelineCompRgb0 ctx rays) opacity
    opacity := opacity
    depth := pipelineDepth ctx rays
    rays_valid := opacity.map fun o => decide (0 < o)
    num_samples := samples.length
    weights := if training then w else []
    points := if training then samples.map sampleMid else []
    intervals := if training then samples.map (fun s => s.2.2 - s.2.1) else []
    ray_indices := if training then samples.map (fun s => s.1) else [] }

/-- Splits a list into chunks of `k` elements (whole list if `k = 0`). -/
def chunkList {α : Type} (k : ℕ) (xs : List α) : List (List α) :=
  if xs.isEmpty then []
  else if k = 0 then [xs]
  else xs.take k :: chunkList k (xs.drop k)
termination_by xs.length
decreasing_by
  simp only [List.length_drop]
  rename_i h1 h2
  have hx : xs ≠ [] := by simpa [List.isEmpty_iff] using h1
  have : 0 < xs.length := List.length_pos.mpr hx
  omega

/-- Concatenation of two forward outputs (chunk results glued back). -/
def joinOut (a b : RenderOut) : RenderOut :=
  { comp_rgb := a.comp_rgb ++ b.comp_rgb
    opacity := a.opacity ++ b.opacity
    depth := a.depth ++ b.depth
    rays_valid := a.rays_valid ++ b.rays_valid
    num_samples := a.num_samples + b.num_samples
    weights := a.weights ++ b.weights
    points := a.points ++ b.points
    intervals := a.intervals ++ b.intervals
    ray_indices := a.ray_indices ++ b.ray_indices }

/-- The empty forward output. -/
def emptyOut : RenderOut :=
  { comp_rgb := [], opacity := [], depth := [], rays_valid := []
    num_samples := 0, weights := [], points := [], intervals := []
    ray_indices := [] }

/-- Modelled from the spec: `chunk_batch` (models/utils.py, not under src/) —
partitions the ray batch into fixed-size chunks, runs the pipeline per chunk
(outside training), and concatenates the results in original order. -/
def chunk_batch {F : Type} (ctx : Ctx F) (k : ℕ) (rays : List Ray) :
    RenderOut :=
  ((chunkList k rays).map (forward_ ctx false)).foldr joinOut emptyOut

/-- `NeRFModel.forward` (nerf.py lines 148-155): unchunked when training,
chunked by `config.ray_chunk` otherwise. -/
def forward {F : Type} (ctx : Ctx F) (training : Bool) (rays : List Ray) :
    RenderOut :=
  if training then forward_ ctx training rays
  else chunk_batch ctx ctx.cfg.ray_chunk rays

/-- Clamp to `[0, 1]` (the `.clamp(0,1)` of nerf.py line 178). -/
def clamp01 (q : ℚ) : ℚ := max 0 (min 1 q)

/-- Componentwise clamp of a colour to `[0, 1]`. -/
def clamp01v (v : Vec3) : Vec3 := (clamp01 v.1, clamp01 v.2.1, clamp01 v.2.2)

/-- Modelled from the spec: the export path's chunked feature computation
(`chunk_batch(self.geometry, chunk_size, False, v_pos)`, with `chunk_batch`
from models/utils.py, not under src/): the geometry is applied chunk by chunk
and the per-vertex features are concatenated in original order. -/
def chunkMapFeature {F : Type} (geometry : Vec3 → ℚ × F) (k : ℕ)
    (v_pos : List Vec3) : List F :=
  ((chunkList k v_pos).map fun c => c.map fun v => (geometry v).2).flatten

/-- `NeRFModel.export`, vertex-colour part (nerf.py lines 171-180): when
`export_vertex_color` is set, per-vertex colours are the texture at the
vertex's feature and the fixed view direction `(0, 0, -1)`, clamped to
`[0, 1]`; otherwise no colours are produced. -/
def export_v_rgb {F : Type} (geometry : Vec3 → ℚ × F)
    (texture : F → Vec3 → Vec3) (v_pos : List Vec3)
    (export_vertex_color : Bool) (chunk_size : ℕ) : Option (List Vec3) :=
  if export_vertex_color then
    some ((chunkMapFeature geometry chunk_size v_pos).map
      fun f => clamp01v (texture f (0, 0, -1)))
  else none

/-! Proof-layer definitions: per-ray reference semantics of the pipeline. -/

/-- `rawSamples` generalised to an arbitrary starting ray index. -/
def rawFrom {F : Type} (ctx : Ctx F) (i : ℕ) (rays : List Ray) :
    List (ℕ × ℚ × ℚ) :=
  (List.enumFrom i rays).flatMap fun p => (raySamples ctx p.2).map fun q => (p.1, q)

/-- Transmittance evolution along a single ray: weight of each sample is the
running transmittance times its alpha. -/
def weights1 : List ℚ → ℚ → List ℚ
  | [], _ => []
  | a :: rest, t => t * a :: weights1 rest (t * (1 - a))

/-- The transmittance function after processing a flat tagged alpha list. -/
def tAfter : List (ℕ × ℚ) → (ℕ → ℚ) → ℕ → ℚ
  | [], T => T
  | (r, a) :: rest, T =>
      tAfter rest fun r' => if r' = r then T r * (1 - a) else T r'

/-- A list of per-ray segments flattened with ray indices starting at `i`. -/
def segJoinFrom {α : Type} (i : ℕ) (segs : List (List α)) : List (ℕ × α) :=
  (List.enumFrom i segs).flatMap fun p => p.2.map fun a => (p.1, a)

/-- Alpha of one sample interval of a single ray. -/
def rayAlpha {F : Type} (ctx : Ctx F) (ray : Ray) (q : ℚ × ℚ) : ℚ :=
  ctx.alphaFn (ctx.geometry (posAlong ray.1 ray.2 ((q.1 + q.2) / 2))).1
    (q.2 - q.1)

/-- Midpoint of one sample interval. -/
def rayMidQ (q : ℚ × ℚ) : ℚ := (q.1 + q.2) / 2

/-- Colour of one sample interval of a single ray. -/
def rayRgbAt {F : Type} (ctx : Ctx F) (ray : Ray) (q : ℚ × ℚ) : Vec3 :=
  ctx.texture (ctx.geometry (posAlong ray.1 ray.2 ((q.1 + q.2) / 2))).2 ray.2

/-- Volume-rendering weights of a single ray's samples. -/
def rayWeights {F : Type} (ctx : Ctx F) (ray : Ray) : List ℚ :=
  weights1 ((raySamples ctx ray).map (rayAlpha ctx ray)) 1

/-- Reference per-ray opacity: sum of the ray's weights. -/
def rayOpacity {F : Type} (ctx : Ctx F) (ray : Ray) : ℚ :=
  (rayWeights ctx ray).sum

/-- Reference per-ray depth: weighted sum of the ray's sample midpoints. -/
def rayDepth {F : Type} (ctx : Ctx F) (ray : Ray) : ℚ :=
  (List.zipWith (· * ·) (rayWeights ctx ray)
    ((raySamples ctx ray).map rayMidQ)).sum

/-- Reference per-ray accumulated colour (before background compositing). -/
def rayRgb0 {F : Type} (ctx : Ctx F) (ray : Ray) : Vec3 :=
  (List.zipWith smul3 (rayWeights ctx ray)
    ((raySamples ctx ray).map (rayRgbAt ctx ray))).sum

/-- Reference per-ray composited colour. -/
def rayCompRgb {F : Type} (ctx : Ctx F) (ray : Ray) : Vec3 :=
  rayRgb0 ctx ray + smul3 (1 - rayOpacity ctx ray) ctx.bg

/-- The default ray used by out-of-range ray lookups. -/
def d0 : Ray := ((0, 0, 0), (0, 0, 0))

/-! Concrete instances used by the witnesses. -/

/-- A concrete geometry network: density 1 everywhere, trivial feature. -/
def geomW : Vec3 → ℚ × Unit := fun _ => (1, ())

/-- A concrete forward context: bounded scene, pruning on, one sample on the
interval `(0, 1)` per ray, texture constantly `(2, 2, 2)`, Taylor alpha. -/
def ctxW : Ctx Unit :=
  { cfg := ⟨1, false, 64, true, false, 16⟩
    coneUB := 0
    geometry := geomW
    texture := fun _ _ => (2, 2, 2)
    est := fun _ => [(0, 1)]
    raia := fun _ _ _ _ => (0, 2, true)
    alphaFn := fun d delta => d * delta
    randomized := false
    bg := (0, 0, 0) }

/-- `ctxW` with a learned background (unbounded scene). -/
def ctxWub : Ctx Unit := { ctxW with cfg := ⟨1, true, 64, true, false, 16⟩ }

/-- `ctxW` with grid pruning disabled. -/
def ctxWnp : Ctx Unit := { ctxW with cfg := ⟨1, false, 64, false, false, 16⟩ }

/-- A concrete ray. -/
def rayW : Ray := ((0, 0, 0), (1, 0, 0))

/-- `ctxW` with an estimator that returns no samples at all. -/
def ctxWempty : Ctx Unit := { ctxW with est := fun _ => [] }

/-- `ctxW` with chunk size 2 (smaller than the 3-ray batch below). -/
def ctxW8 : Ctx Unit := { ctxW with cfg := ⟨1, false, 64, true, false, 2⟩ }

/-- A concrete batch of three rays. -/
def raysW3 : List Ray :=
  [((0, 0, 0), (1, 0, 0)), ((1, 1, 1), (0, 1, 0)), ((2, 0, 0), (0, 0, 1))]

/-! Transmittance and segment lemmas. -/

lemma weights1_length (s : List ℚ) (t : ℚ) : (weights1 s t).length = s.length := by
  induction s generalizing t with
  | nil => rfl
  | cons a rest ih => simp [weights1, ih]

lemma weightsAux_append (l1 l2 : List (ℕ × ℚ)) (T : ℕ → ℚ) :
    weightsAux (l1 ++ l2) T = weightsAux l1 T ++ weightsAux l2 (tAfter l1 T) := by
  induction l1 generalizing T with
  | nil => rfl
  | cons hd t ih =>
      obtain ⟨r, a⟩ := hd
      simp [weightsAux, tAfter, ih]

lemma weightsAux_congr (l : List (ℕ × ℚ)) (T T' : ℕ → ℚ)
    (h : ∀ p ∈ l, T p.1 = T' p.1) : weightsAux l T = weightsAux l T' := by
  induction l generalizing T T' with
  | nil => rfl
  | cons hd t ih =>
      obtain ⟨r, a⟩ := hd
      have hr : T r = T' r := h (r, a) (List.mem_cons_self _ _)
      simp only [weightsAux, hr]
      congr 1
      apply ih
      intro p hp
      by_cases hpr : p.1 = r
      · simp [hpr, hr]
      · simpa [hpr] using h p (List.mem_cons_of_mem _ hp)

lemma tAfter_of_ne (l : List (ℕ × ℚ)) (T : ℕ → ℚ) (r' : ℕ)
    (h : ∀ p ∈ l, p.1 ≠ r') : tAfter l T r' = T r' := by
  induction l generalizing T with
  | nil => rfl
  | cons hd t ih =>
      obtain ⟨r, a⟩ := hd
      have hne : r ≠ r' := h (r, a) (List.mem_cons_self _ _)
      simp only [tAfter]
      rw [ih _ fun p hp => h p (List.mem_cons_of_mem _ hp)]
      simp [Ne.symm hne]

lemma weightsAux_tagged (s : List ℚ) (i : ℕ) (T : ℕ → ℚ) :
    weightsAux (s.map fun a => (i, a)) T = weights1 s (T i) := by
  induction s generalizing T with
  | nil => rfl
  | cons a t ih =>
      simp only [List.map_cons, weightsAux, weights1]
      congr 1
      rw [ih]
      simp

lemma segJoinFrom_cons {α : Type} (i : ℕ) (s : List α) (rest : List (List α)) :
    segJoinFrom i (s :: rest)
      = (s.map fun a => (i, a)) ++ segJoinFrom (i + 1) rest := by
  simp [segJoinFrom, List.enumFrom]

lemma segJoinFrom_fst_ge {α : Type} :
    ∀ (segs : List (List α)) (i : ℕ), ∀ p ∈ segJoinFrom i segs, i ≤ p.1 := by
  intro segs
  induction segs with
  | nil => intro i p hp; simp [segJoinFrom] at hp
  | cons s rest ih =>
      intro i p hp
      rw [segJoinFrom_cons] at hp
      rcases List.mem_append.mp hp with h | h
      · obtain ⟨a, _, rfl⟩ := List.mem_map.mp h
        exact le_refl i
      · exact Nat.le_of_succ_le (ih (i + 1) p h)

lemma weightsAux_segJoin :
    ∀ (segs : List (List ℚ)) (i : ℕ) (T : ℕ → ℚ), (∀ r, i ≤ r → T r = 1) →
      weightsAux (segJoinFrom i segs) T
        = (segs.map fun s => weights1 s 1).flatten := by
  intro segs
  induction segs with
  | nil => intro i T _; rfl
  | cons s rest ih =>
      intro i T hT
      rw [segJoinFrom_cons, weightsAux_append, weightsAux_tagged, hT i le_rfl]
      simp only [List.map_cons, List.flatten_cons]
      congr 1
      rw [weightsAux_congr _ _ T fun p hp => by
        have hge := segJoinFrom_fst_ge rest (i + 1) p hp
        exact tAfter_of_ne _ _ _ fun q hq => by
          obtain ⟨a, _, rfl⟩ := List.mem_map.mp hq
          omega]
      exact ih (i + 1) T fun r hr => hT r (Nat.le_of_succ_le hr)

lemma fst_tagged {α : Type} (i : ℕ) (s : List α) :
    (s.map fun a => (i, a)).map Prod.fst = List.replicate s.length i := by
  induction s with
  | nil => rfl
  | cons a t ih => simp [List.replicate, ih]

lemma replicate_zip {β : Type} (i : ℕ) :
    ∀ b : List β, (List.replicate b.length (i : ℕ)).zip b = b.map fun x => (i, x) := by
  intro b
  induction b with
  | nil => rfl
  | cons x t ih => simp [List.replicate, ih]

lemma zip_fst_segJoin {α β : Type} (segsA : List (List α)) (segsB : List (List β))
    (h : List.Forall₂ (fun a b => a.length = b.length) segsA segsB) :
    ∀ i : ℕ, ((segJoinFrom i segsA).map Prod.fst).zip segsB.flatten
      = segJoinFrom i segsB := by
  induction h with
  | nil => intro i; rfl
  | @cons a b A B hab _ ih =>
      intro i
      rw [segJoinFrom_cons, segJoinFrom_cons, List.flatten_cons, List.map_append]
      rw [@List.zip_append ℕ β ((a.map fun x => ((i : ℕ), x)).map Prod.fst)
        ((segJoinFrom (i + 1) A).map Prod.fst) b B.flatten (by simp [hab])]
      have h1 : ((a.map fun x => ((i : ℕ), x)).map Prod.fst).zip b
          = b.map fun x => (i, x) := by
        rw [fst_tagged, hab, replicate_zip]
      rw [h1, ih (i + 1)]

lemma zipWith_flatten {α β γ : Type} (f : α → β → γ) (A : List (List α))
    (B : List (List β)) (h : List.Forall₂ (fun a b => a.length = b.length) A B) :
    List.zipWith f A.flatten B.flatten
      = (List.zipWith (List.zipWith f) A B).flatten := by
  induction h with
  | nil => rfl
  | @cons a b A B hab _ ih =>
      simp only [List.flatten_cons, List.zipWith_cons_cons]
      rw [List.zipWith_append _ _ _ _ _ hab, ih]

lemma snd_segJoin {α : Type} :
    ∀ (segs : List (List α)) (i : ℕ),
      (segJoinFrom i segs).map Prod.snd = segs.flatten := by
  intro segs
  induction segs with
  | nil => intro i; rfl
  | cons s rest ih =>
      intro i
      rw [segJoinFrom_cons]
      simp [ih (i + 1)]

lemma zipWith_map_same {α β γ δ : Type} (F : α → β → γ) (f : δ → α) (g : δ → β)
    (l : List δ) :
    List.zipWith F (l.map f) (l.map g) = l.map fun x => F (f x) (g x) := by
  induction l with
  | nil => rfl
  | cons x t ih => simp [ih]

lemma forall₂_of_map {α β γ : Type} (R : β → γ → Prop) (f : α → β) (g : α → γ)
    (l : List α) (h : ∀ a ∈ l, R (f a) (g a)) :
    List.Forall₂ R (l.map f) (l.map g) := by
  induction l with
  | nil => simp
  | cons x t ih =>
      simp only [List.map_cons, List.forall₂_cons]
      exact ⟨h x (List.mem_cons_self _ _),
        ih fun a ha => h a (List.mem_cons_of_mem _ ha)⟩

lemma filter_segJoin_lt {α : Type} :
    ∀ (segs : List (List α)) (i r : ℕ), r < i →
      (segJoinFrom i segs).filter (fun p => p.1 == r) = [] := by
  intro segs
  induction segs with
  | nil => intro i r _; rfl
  | cons s rest ih =>
      intro i r hr
      rw [segJoinFrom_cons, List.filter_append, ih (i + 1) r (Nat.lt_succ_of_lt hr)]
      have : ∀ p ∈ s.map fun a => ((i : ℕ), a), ¬(p.1 == r) = true := by
        intro p hp
        obtain ⟨a, _, rfl⟩ := List.mem_map.mp hp
        simp
        omega
      simp [List.filter_eq_nil_iff.mpr this]

lemma filter_segJoin {α : Type} :
    ∀ (segs : List (List α)) (i j : ℕ), j < segs.length →
      (segJoinFrom i segs).filter (fun p => p.1 == i + j)
        = (segs.getD j []).map fun a => (i + j, a) := by
  intro segs
  induction segs with
  | nil => intro i j hj; simp at hj
  | cons s rest ih =>
      intro i j hj
      rw [segJoinFrom_cons, List.filter_append]
      cases j with
      | zero =>
          rw [filter_segJoin_lt rest (i + 1) (i + 0) (by omega)]
          simp [List.filter_map, Function.comp_def]
      | succ j =>
          have h1 : ∀ p ∈ s.map fun a => ((i : ℕ), a), ¬(p.1 == i + (j + 1)) = true := by
            intro p hp
            obtain ⟨a, _, rfl⟩ := List.mem_map.mp hp
            simp
          rw [List.filter_eq_nil_iff.mpr h1, List.nil_append]
          have h2 : i + (j + 1) = (i + 1) + j := by omega
          rw [h2, ih (i + 1) j (by simpa using hj)]
          rfl

lemma accumulate_segJoin {M : Type} [AddCommMonoid M] (segs : List (List M)) :
    accumulate_along_rays (segJoinFrom 0 segs) segs.length
      = segs.map List.sum := by
  unfold accumulate_along_rays
  apply List.ext_getElem (by simp)
  intro r h1 h2
  have hr : r < segs.length := by simpa using h2
  simp only [List.getElem_map, List.getElem_range]
  have := filter_segJoin segs 0 r hr
  rw [show (0 : ℕ) + r = r by omega] at this
  rw [this, List.map_map]
  have : (Prod.snd ∘ fun a => ((r : ℕ), a)) = (id : M → M) := rfl
  rw [this, List.map_id, List.getD_eq_getElem _ _ hr]

/-! Decomposition of the flat pipeline into per-ray segments. -/

lemma rawSamples_eq_rawFrom {F : Type} (ctx : Ctx F) (rays : List Ray) :
    rawSamples ctx rays = rawFrom ctx 0 rays := rfl

lemma rawFrom_cons {F : Type} (ctx : Ctx F) (i : ℕ) (ray : Ray)
    (rest : List Ray) :
    rawFrom ctx i (ray :: rest)
      = ((raySamples ctx ray).map fun q => (i, q)) ++ rawFrom ctx (i + 1) rest := by
  simp [rawFrom, List.enumFrom]

lemma getD_enum (L : List Ray) (p : ℕ × Ray) (hp : p ∈ L.enum) :
    L.getD p.1 d0 = p.2 := by
  obtain ⟨j, hj, hje⟩ := List.mem_iff_getElem.mp hp
  have hL : j < L.length := by simpa [List.enum] using hj
  have he : (L.enum)[j] = (j, L[j]) := by
    simpa [List.enum] using List.getElem_enumFrom L 0 j hj
  rw [he] at hje
  subst hje
  exact List.getD_eq_getElem L d0 hL

lemma rawFrom_decorate {F : Type} {β : Type} (ctx : Ctx F)
    (g : Ray → (ℚ × ℚ) → β) :
    ∀ (rays : List Ray) (i : ℕ) (L : List Ray),
      (∀ p ∈ List.enumFrom i rays, L.getD p.1 d0 = p.2) →
      (rawFrom ctx i rays).map (fun s => (s.1, g (L.getD s.1 d0) s.2))
        = segJoinFrom i (rays.map fun ray => (raySamples ctx ray).map (g ray)) := by
  intro rays
  induction rays with
  | nil => intro i L _; rfl
  | cons ray rest ih =>
      intro i L h
      rw [rawFrom_cons, List.map_append, List.map_cons, segJoinFrom_cons]
      have hhd : L.getD i d0 = ray := h (i, ray) (by simp [List.enumFrom])
      have h1 : (((raySamples ctx ray).map fun q => ((i : ℕ), q)).map
            fun s => (s.1, g (L.getD s.1 d0) s.2))
          = ((raySamples ctx ray).map (g ray)).map fun a => ((i : ℕ), a) := by
        rw [List.map_map, List.map_map]
        exact List.map_congr_left fun q _ => by
          show ((i : ℕ), g (L.getD i d0) q) = (i, g ray q)
          rw [hhd]
      rw [h1, ih (i + 1) L fun p hp => h p (by simp [List.enumFrom, hp])]

lemma rawFrom_eq_nil {F : Type} (ctx : Ctx F) :
    ∀ (rays : List Ray) (i : ℕ), rawFrom ctx i rays = [] →
      ∀ ray ∈ rays, raySamples ctx ray = [] := by
  intro rays
  induction rays with
  | nil => intro i _ ray hr; simp at hr
  | cons ray rest ih =>
      intro i h r hr
      rw [rawFrom_cons] at h
      obtain ⟨h1, h2⟩ := List.append_eq_nil.mp h
      rcases List.mem_cons.mp hr with rfl | hr'
      · exact List.map_eq_nil_iff.mp h1
      · exact ih (i + 1) h2 r hr'

lemma zipWith_replicate {α β γ : Type} (f : α → β → γ) (a : α) (b : β) :
    ∀ n : ℕ, List.zipWith f (List.replicate n a) (List.replicate n b)
      = List.replicate n (f a b) := by
  intro n
  induction n with
  | zero => rfl
  | succ n ih => simp [List.replicate, ih]

lemma smul3_zero_left (v : Vec3) : smul3 0 v = (0, 0, 0) := by
  simp [smul3]

lemma smul3_one_left (v : Vec3) : smul3 1 v = v := by
  simp [smul3]

lemma accumulate_single_zero {M : Type} [AddCommMonoid M] (j n : ℕ) :
    accumulate_along_rays [(j, (0 : M))] n = List.replicate n 0 := by
  unfold accumulate_along_rays
  have h : ∀ r ∈ List.range n,
      ((([((j : ℕ), (0 : M))].filter fun p => p.1 == r).map Prod.snd).sum)
        = ((fun _ => (0 : M)) r) := by
    intro r _
    by_cases hj : j = r <;> simp [List.filter_singleton, hj]
  rw [List.map_congr_left h, List.map_const', List.length_range]

lemma pipeline_empty {F : Type} (ctx : Ctx F) (rays : List Ray)
    (hre : rawSamples ctx rays = []) (halpha : ∀ d, ctx.alphaFn d 0 = 0) :
    pipelineSamples ctx rays = [(0, 0, 0)]
    ∧ pipelineWeights ctx rays = [0]
    ∧ pipelineOpacity ctx rays = List.replicate rays.length 0
    ∧ pipelineDepth ctx rays = List.replicate rays.length 0
    ∧ pipelineCompRgb0 ctx rays = List.replicate rays.length 0 := by
  have hs : pipelineSamples ctx rays = [(0, 0, 0)] := by
    simp [pipelineSamples, hre, validate_empty_rays]
  have ha : sampleAlpha ctx rays (0, 0, 0) = 0 := by
    have h0 : ((0 : ℚ) - 0) = 0 := by norm_num
    simp [sampleAlpha, h0, halpha]
  have ha' : sampleAlpha ctx rays 0 = 0 := ha
  have hw : pipelineWeights ctx rays = [0] := by
    simp [pipelineWeights, render_weight_from_density, hs, weightsAux, ha, ha']
  refine ⟨hs, hw, ?_, ?_, ?_⟩
  · unfold pipelineOpacity
    rw [hs, hw]
    simpa using accumulate_single_zero (M := ℚ) 0 rays.length
  · unfold pipelineDepth
    rw [hs, hw]
    simpa [sampleMid] using accumulate_single_zero (M := ℚ) 0 rays.length
  · unfold pipelineCompRgb0
    rw [hs, hw]
    simpa [smul3_zero_left] using accumulate_single_zero (M := Vec3) 0 rays.length

lemma pipeline_pointwise {F : Type} (ctx : Ctx F) (rays : List Ray)
    (halpha : ∀ d, ctx.alphaFn d 0 = 0) :
    pipelineOpacity ctx rays = rays.map (rayOpacity ctx)
    ∧ pipelineDepth ctx rays = rays.map (rayDepth ctx)
    ∧ pipelineCompRgb0 ctx rays = rays.map (rayRgb0 ctx) := by
  by_cases hre : rawSamples ctx rays = []
  · obtain ⟨_, _, ho, hd, hc⟩ := pipeline_empty ctx rays hre halpha
    have hnil : ∀ ray ∈ rays, raySamples ctx ray = [] :=
      rawFrom_eq_nil ctx rays 0 (by rw [← rawSamples_eq_rawFrom]; exact hre)
    refine ⟨?_, ?_, ?_⟩
    · rw [ho, List.map_congr_left fun ray hr =>
        show rayOpacity ctx ray = (fun _ => (0 : ℚ)) ray from by
          simp [rayOpacity, rayWeights, hnil ray hr, weights1]]
      rw [List.map_const']
    · rw [hd, List.map_congr_left fun ray hr =>
        show rayDepth ctx ray = (fun _ => (0 : ℚ)) ray from by
          simp [rayDepth, rayWeights, hnil ray hr, weights1]]
      rw [List.map_const']
    · rw [hc, List.map_congr_left fun ray hr =>
        show rayRgb0 ctx ray = (fun _ => (0 : Vec3)) ray from by
          simp [rayRgb0, rayWeights, hnil ray hr, weights1]]
      rw [List.map_const']
  · have hs : pipelineSamples ctx rays = rawSamples ctx rays := by
      simp [pipelineSamples, validate_empty_rays, hre]
    have hE : ∀ p ∈ List.enumFrom 0 rays, rays.getD p.1 d0 = p.2 :=
      fun p hp => getD_enum rays p hp
    have hAeq : (pipelineSamples ctx rays).map (fun s => (s.1, sampleAlpha ctx rays s))
        = segJoinFrom 0 (rays.map fun ray =>
            (raySamples ctx ray).map (rayAlpha ctx ray)) := by
      rw [hs, rawSamples_eq_rawFrom]
      exact rawFrom_decorate ctx (rayAlpha ctx) rays 0 rays hE
    have hMeq : (pipelineSamples ctx rays).map (fun s => (s.1, sampleMid s))
        = segJoinFrom 0 (rays.map fun ray =>
            (raySamples ctx ray).map rayMidQ) := by
      rw [hs, rawSamples_eq_rawFrom]
      exact rawFrom_decorate ctx (fun _ q => rayMidQ q) rays 0 rays hE
    have hReq : (pipelineSamples ctx rays).map (fun s => (s.1, sampleRgb ctx rays s))
        = segJoinFrom 0 (rays.map fun ray =>
            (raySamples ctx ray).map (rayRgbAt ctx ray)) := by
      rw [hs, rawSamples_eq_rawFrom]
      exact rawFrom_decorate ctx (rayRgbAt ctx) rays 0 rays hE
    have hidx : (pipelineSamples ctx rays).map (fun s => s.1)
        = (segJoinFrom 0 (rays.map fun ray =>
            (raySamples ctx ray).map (rayAlpha ctx ray))).map Prod.fst := by
      have := congrArg (List.map Prod.fst) hAeq
      simpa [List.map_map, Function.comp_def] using this
    have hmids : (pipelineSamples ctx rays).map sampleMid
        = (rays.map fun ray => (raySamples ctx ray).map rayMidQ).flatten := by
      have := congrArg (List.map Prod.snd) hMeq
      rw [snd_segJoin] at this
      simpa [List.map_map, Function.comp_def] using this
    have hrgbs : (pipelineSamples ctx rays).map (sampleRgb ctx rays)
        = (rays.map fun ray => (raySamples ctx ray).map (rayRgbAt ctx ray)).flatten := by
      have := congrArg (List.map Prod.snd) hReq
      rw [snd_segJoin] at this
      simpa [List.map_map, Function.comp_def] using this
    have hwght : pipelineWeights ctx rays = (rays.map (rayWeights ctx)).flatten := by
      unfold pipelineWeights render_weight_from_density
      rw [hAeq, weightsAux_segJoin _ 0 _ fun r _ => rfl, List.map_map]
      rfl
    have hF_AW : List.Forall₂ (fun a b => a.length = b.length)
        (rays.map fun ray => (raySamples ctx ray).map (rayAlpha ctx ray))
        (rays.map (rayWeights ctx)) :=
      forall₂_of_map _ _ _ rays fun ray _ => by
        simp [rayWeights, weights1_length]
    have hlen : rays.length = (rays.map (rayWeights ctx)).length :=
      (List.length_map _ _).symm
    refine ⟨?_, ?_, ?_⟩
    · unfold pipelineOpacity
      rw [hidx, hwght, zip_fst_segJoin _ _ hF_AW 0, hlen, accumulate_segJoin,
        List.map_map]
      rfl
    · unfold pipelineDepth
      rw [hidx, hwght, hmids]
      rw [zipWith_flatten _ _ _ (forall₂_of_map _ _ _ rays fun ray _ => by
        simp [rayWeights, weights1_length])]
      rw [zipWith_map_same]
      rw [zip_fst_segJoin _ _ (forall₂_of_map _ _ _ rays fun ray _ => by
        simp [List.length_zipWith, rayWeights, weights1_length]) 0]
      have hlen2 : rays.length = (rays.map fun ray =>
          List.zipWith (· * ·) (rayWeights ctx ray)
            ((raySamples ctx ray).map rayMidQ)).length :=
        (List.length_map _ _).symm
      rw [hlen2, accumulate_segJoin, List.map_map]
      rfl
    · unfold pipelineCompRgb0
      rw [hidx, hwght, hrgbs]
      rw [zipWith_flatten _ _ _ (forall₂_of_map _ _ _ rays fun ray _ => by
        simp [rayWeights, weights1_length])]
      rw [zipWith_map_same]
      rw [zip_fst_segJoin _ _ (forall₂_of_map _ _ _ rays fun ray _ => by
        simp [List.length_zipWith, rayWeights, weights1_length]) 0]
      have hlen3 : rays.length = (rays.map fun ray =>
          List.zipWith smul3 (rayWeights ctx ray)
            ((raySamples ctx ray).map (rayRgbAt ctx ray))).length :=
        (List.length_map _ _).symm
      rw [hlen3, accumulate_segJoin, List.map_map]
      rfl

lemma forward_fields_map {F : Type} (ctx : Ctx F) (tr : Bool) (rays : List Ray)
    (halpha : ∀ d, ctx.alphaFn d 0 = 0) :
    (forward_ ctx tr rays).opacity = rays.map (rayOpacity ctx)
    ∧ (forward_ ctx tr rays).depth = rays.map (rayDepth ctx)
    ∧ (forward_ ctx tr rays).comp_rgb = rays.map (rayCompRgb ctx)
    ∧ (forward_ ctx tr rays).rays_valid
        = rays.map fun ray => decide (0 < rayOpacity ctx ray) := by
  obtain ⟨ho, hd, hc⟩ := pipeline_pointwise ctx rays halpha
  refine ⟨ho, hd, ?_, ?_⟩
  · show List.zipWith (fun c o => c + smul3 (1 - o) ctx.bg)
      (pipelineCompRgb0 ctx rays) (pipelineOpacity ctx rays) = _
    rw [hc, ho, zipWith_map_same]
    rfl
  · show (pipelineOpacity ctx rays).map (fun o => decide (0 < o)) = _
    rw [ho, List.map_map]
    rfl

lemma foldr_joinOut (l : List RenderOut) :
    ((l.foldr joinOut emptyOut).opacity = (l.map RenderOut.opacity).flatten)
    ∧ ((l.foldr joinOut emptyOut).depth = (l.map RenderOut.depth).flatten)
    ∧ ((l.foldr joinOut emptyOut).comp_rgb = (l.map RenderOut.comp_rgb).flatten)
    ∧ ((l.foldr joinOut emptyOut).rays_valid
        = (l.map RenderOut.rays_valid).flatten) := by
  induction l with
  | nil => exact ⟨rfl, rfl, rfl, rfl⟩
  | cons a t ih => simp [joinOut, ih.1, ih.2.1, ih.2.2.1, ih.2.2.2]

lemma chunkList_flatten {α : Type} (k : ℕ) (hk : 0 < k) (xs : List α) :
    (chunkList k xs).flatten = xs := by
  have main : ∀ (n : ℕ) (xs : List α), xs.length ≤ n →
      (chunkList k xs).flatten = xs := by
    intro n
    induction n with
    | zero =>
        intro xs h
        have hx : xs = [] := List.length_eq_zero.mp (Nat.le_zero.mp h)
        subst hx
        unfold chunkList
        simp
    | succ n ih =>
        intro xs h
        unfold chunkList
        by_cases he : xs.isEmpty = true
        · have hx : xs = [] := by simpa [List.isEmpty_iff] using he
          simp [he, hx]
        · have hk0 : ¬ k = 0 := by omega
          simp only [he, hk0, Bool.false_eq_true, if_false]
          rw [List.flatten_cons, ih (xs.drop k) (by
            have hxs : xs ≠ [] := by simpa [List.isEmpty_iff] using he
            have hpos : 0 < xs.length := List.length_pos.mpr hxs
            simp only [List.length_drop]
            omega)]
          exact List.take_append_drop k xs
  exact main xs.length xs le_rfl

lemma length_accumulate {M : Type} [AddCommMonoid M] (vals : List (ℕ × M))
    (n : ℕ) : (accumulate_along_rays vals n).length = n := by
  simp [accumulate_along_rays]

lemma accumulate_getD {M : Type} [AddCommMonoid M] (vals : List (ℕ × M))
    (n r : ℕ) (hr : r < n) :
    (accumulate_along_rays vals n).getD r 0
      = ((vals.filter fun p => p.1 == r).map Prod.snd).sum := by
  unfold accumulate_along_rays
  rw [List.getD_eq_getElem _ _ (by simpa using hr)]
  simp

lemma getD_zipWith {α β γ : Type} (f : α → β → γ) (a : List α) (b : List β)
    (r : ℕ) (da : α) (db : β) (dc : γ) (hra : r < a.length) (hrb : r < b.length) :
    (List.zipWith f a b).getD r dc = f (a.getD r da) (b.getD r db) := by
  rw [List.getD_eq_getElem _ _ (by simp only [List.length_zipWith]; omega),
    List.getElem_zipWith, List.getD_eq_getElem _ _ hra,
    List.getD_eq_getElem _ _ hrb]

lemma getD_map {α β : Type} (f : α → β) (l : List α) (r : ℕ) (d : α) (d' : β)
    (hr : r < l.length) : (l.map f).getD r d' = f (l.getD r d) := by
  rw [List.getD_eq_getElem _ _ (by simpa using hr), List.getElem_map,
    List.getD_eq_getElem _ _ hr]

/-! Claim theorems. -/

/-- C1: at setup, with `learned_background = false`, `radius = 1.0` and
`num_samples_per_ray = 64`, the derived parameters are
`render_step_size = 1.732*2*1.0/64`, `far_plane = 10.0`,
`occupancy_grid_res = 128` and contraction mode AABB; with
`learned_background = true`, `occupancy_grid_res = 256`, `far_plane = 1e10`
and contraction mode UN_BOUNDED_SPHERE. -/
theorem config_derivation (gp rz : Bool) (rc : ℕ) (coneUB : ℚ) :
    ((resolveDerived ⟨1, false, 64, gp, rz, rc⟩ coneUB).render_step_size
        = 1.732 * 2 * 1.0 / 64
      ∧ (resolveDerived ⟨1, false, 64, gp, rz, rc⟩ coneUB).far_plane = 10.0
      ∧ (resolveDerived ⟨1, false, 64, gp, rz, rc⟩ coneUB).occupancy_grid_res = 128
      ∧ (resolveDerived ⟨1, false, 64, gp, rz, rc⟩ coneUB).contraction_type
        = Contraction.AABB)
    ∧ ((resolveDerived ⟨1, true, 64, gp, rz, rc⟩ coneUB).occupancy_grid_res = 256
      ∧ (resolveDerived ⟨1, true, 64, gp, rz, rc⟩ coneUB).far_plane = 1e10
      ∧ (resolveDerived ⟨1, true, 64, gp, rz, rc⟩ coneUB).contraction_type
        = Contraction.UN_BOUNDED_SPHERE) := by
  refine ⟨⟨?_, ?_, ?_, ?_⟩, ⟨?_, ?_, ?_⟩⟩ <;> simp [resolveDerived] <;> norm_num

/-- C2: with `grid_prune = false`, setup leaves the occupancy grid fully
occupied (all cells true), and neither `update_step` (at any epoch or step,
training or not, whatever the external update routine does) nor the
train/eval mode switches ever change the grid of a pruning-off model. -/
theorem grid_prune_off_grid_never_changes {F : Type} (geometry : Vec3 → ℚ × F)
    (cfg : Config) (coneUB : ℚ) (g0 : OccGrid) (hp : cfg.grid_prune = false) :
    (setup cfg coneUB g0).grid
        = fullGrid (resolveDerived cfg coneUB).occupancy_grid_res
    ∧ (setup cfg coneUB g0).grid.binaries
        = List.replicate ((resolveDerived cfg coneUB).occupancy_grid_res ^ 3) true
    ∧ (∀ (updateFn : ℕ → (Vec3 → ℚ) → OccGrid → OccGrid) (training : Bool)
        (epoch gstep : ℕ) (s : ModelState), s.cfg.grid_prune = false →
        (update_step geometry updateFn training epoch gstep s).grid = s.grid)
    ∧ (∀ (s : ModelState) (m : Bool), (train_mode s m).grid = s.grid)
    ∧ (∀ s : ModelState, (eval_mode s).grid = s.grid) := by
  refine ⟨?_, ?_, ?_, ?_, ?_⟩
  · simp [setup, hp]
  · simp [setup, hp, fullGrid]
  · intro uf training epoch gstep s hs
    simp [update_step, hs]
  · intro s m; rfl
  · intro s; rfl

/-- Witness for C2 at a concrete pruning-off configuration, with an update
routine that would wipe the grid if it were ever invoked. -/
theorem grid_prune_off_witness :
    (setup ⟨1, false, 64, false, false, 16⟩ 0 ⟨[0], [false]⟩).grid
      = fullGrid (resolveDerived ⟨1, false, 64, false, false, 16⟩ 0).occupancy_grid_res
    ∧ (update_step geomW (fun _ _ _ => ⟨[], []⟩) true 0 5
        (setup ⟨1, false, 64, false, false, 16⟩ 0 ⟨[0], [false]⟩)).grid
      = (setup ⟨1, false, 64, false, false, 16⟩ 0 ⟨[0], [false]⟩).grid := by
  have h := grid_prune_off_grid_never_changes geomW
    ⟨1, false, 64, false, false, 16⟩ 0 ⟨[0], [false]⟩ rfl
  exact ⟨h.1, h.2.2.1 _ true 0 5 _ rfl⟩

/-- C3: the density callback handed to the occupancy-grid refresh returns
exactly `density(x) * render_step_size` — the first-order Taylor
approximation — and not the exact opacity `1 - exp(-density * step)`
(the two differ whenever `density * step ≠ 0`); `update_step` passes exactly
this callback to the external refresh routine. -/
theorem occ_eval_fn_taylor {F : Type} (geometry : Vec3 → ℚ × F) (rss : ℚ)
    (x : Vec3) (h : (geometry x).1 * rss ≠ 0) :
    occ_eval_fn geometry rss x = (geometry x).1 * rss
    ∧ ((occ_eval_fn geometry rss x : ℝ)
        ≠ 1 - Real.exp (-(((geometry x).1 * rss : ℚ) : ℝ)))
    ∧ (∀ (uf : ℕ → (Vec3 → ℚ) → OccGrid → OccGrid) (epoch gstep : ℕ)
        (s : ModelState), s.cfg.grid_prune = true →
        (update_step geometry uf true epoch gstep s).grid
          = uf gstep
              (occ_eval_fn geometry (resolveDerived s.cfg s.coneUB).render_step_size)
              s.grid) := by
  refine ⟨rfl, ?_, ?_⟩
  · have hy : (((geometry x).1 * rss : ℚ) : ℝ) ≠ 0 := by exact_mod_cast h
    have hlt := Real.add_one_lt_exp (neg_ne_zero.mpr hy)
    have : 1 - Real.exp (-(((geometry x).1 * rss : ℚ) : ℝ))
        < (((geometry x).1 * rss : ℚ) : ℝ) := by linarith
    have hne : (((geometry x).1 * rss : ℚ) : ℝ)
        ≠ 1 - Real.exp (-(((geometry x).1 * rss : ℚ) : ℝ)) := by linarith
    simpa [occ_eval_fn] using hne
  · intro uf epoch gstep s hs
    simp [update_step, hs]

/-- Witness for C3 at density 1, step size 1, position the origin. -/
theorem occ_eval_fn_taylor_witness :
    occ_eval_fn geomW 1 (0, 0, 0) = (geomW (0, 0, 0)).1 * 1
    ∧ ((occ_eval_fn geomW 1 (0, 0, 0) : ℝ)
        ≠ 1 - Real.exp (-(((geomW (0, 0, 0)).1 * 1 : ℚ) : ℝ)))
    ∧ (update_step geomW (fun _ _ g => g) true 0 3
        (setup ⟨1, false, 64, true, false, 16⟩ 0 ⟨[0], [false]⟩)).grid
      = (fun _ _ g => g) 3
          (occ_eval_fn geomW
            (resolveDerived
              (setup ⟨1, false, 64, true, false, 16⟩ 0 ⟨[0], [false]⟩).cfg
              (setup ⟨1, false, 64, true, false, 16⟩ 0 ⟨[0], [false]⟩).coneUB).render_step_size)
          (setup ⟨1, false, 64, true, false, 16⟩ 0 ⟨[0], [false]⟩).grid := by
  have h := occ_eval_fn_taylor geomW 1 (0, 0, 0) (by norm_num [geomW])
  exact ⟨h.1, h.2.1, h.2.2 _ 0 3 _ rfl⟩

/-- C4: the per-ray sampler arguments built by the forward pass carry, for a
bounded scene (`learned_background = false`), the `t_min`/`t_max` bounds
returned by intersecting the ray with the ±radius scene AABB (with near plane
0 and far plane `10 * radius`); for `learned_background = true` they carry no
bounds (`None`). -/
theorem sampling_bounds_from_aabb {F : Type} (ctx : Ctx F) (ray : Ray) :
    (ctx.cfg.learned_background = false →
      (perRayArgs ctx ray).tbound
        = some ((ctx.raia ray (scene_aabb ctx.cfg) 0 (10.0 * ctx.cfg.radius)).1,
                (ctx.raia ray (scene_aabb ctx.cfg) 0 (10.0 * ctx.cfg.radius)).2.1))
    ∧ (ctx.cfg.learned_background = true →
        (perRayArgs ctx ray).tbound = none) := by
  constructor <;> intro h <;>
    simp [perRayArgs, Ctx.drv, resolveDerived, h]

/-- Witness for C4 on concrete bounded and unbounded contexts. -/
theorem sampling_bounds_from_aabb_witness :
    (perRayArgs ctxW rayW).tbound
      = some ((ctxW.raia rayW (scene_aabb ctxW.cfg) 0 (10.0 * ctxW.cfg.radius)).1,
              (ctxW.raia rayW (scene_aabb ctxW.cfg) 0 (10.0 * ctxW.cfg.radius)).2.1)
    ∧ (perRayArgs ctxWub rayW).tbound = none :=
  ⟨(sampling_bounds_from_aabb ctxW rayW).1 rfl,
   (sampling_bounds_from_aabb ctxWub rayW).2 rfl⟩

/-- C5: the density callback is handed to the sampler iff grid pruning is on
(`sigma` is the per-ray restriction of `sigma_fn` when pruning, `None`
otherwise), and the sampler is always invoked with alpha threshold 0. -/
theorem sigma_fn_iff_grid_prune {F : Type} (ctx : Ctx F) (ray : Ray) :
    ((perRayArgs ctx ray).sigma.isSome = ctx.cfg.grid_prune)
    ∧ (ctx.cfg.grid_prune = true →
        (perRayArgs ctx ray).sigma
          = some (sigmaAlong ctx.geometry ray.1 ray.2))
    ∧ (ctx.cfg.grid_prune = false → (perRayArgs ctx ray).sigma = none)
    ∧ (perRayArgs ctx ray).alpha_thre = 0 := by
  cases hc : ctx.cfg.grid_prune <;> simp [perRayArgs, hc]

/-- Witness for C5 on concrete pruning-on and pruning-off contexts. -/
theorem sigma_fn_iff_grid_prune_witness :
    (perRayArgs ctxW rayW).sigma
      = some (sigmaAlong ctxW.geometry rayW.1 rayW.2)
    ∧ (perRayArgs ctxWnp rayW).sigma = none
    ∧ (perRayArgs ctxW rayW).alpha_thre = 0 :=
  ⟨(sigma_fn_iff_grid_prune ctxW rayW).2.1 rfl,
   (sigma_fn_iff_grid_prune ctxWnp rayW).2.2.1 rfl,
   (sigma_fn_iff_grid_prune ctxW rayW).2.2.2⟩

/-- C6: when the sampler returns zero total samples for a batch (and the
per-sample opacity model satisfies `alpha(d, 0) = 0`, as `1 - exp(-d*0)`
does), the forward pass — thanks to `validate_empty_rays` running before all
downstream indexing — still yields a well-shaped output: opacity, depth and
the pre-background accumulated colour are all-zero lists of length
`n_rays`, the composited colour is the background everywhere, no ray is
valid, and every per-ray field has exactly `n_rays` entries. -/
theorem empty_sample_guard {F : Type} (ctx : Ctx F) (training : Bool)
    (rays : List Ray) (hempty : rawSamples ctx rays = [])
    (halpha : ∀ d, ctx.alphaFn d 0 = 0) :
    (forward_ ctx training rays).opacity = List.replicate rays.length 0
    ∧ (forward_ ctx training rays).depth = List.replicate rays.length 0
    ∧ pipelineCompRgb0 ctx rays = List.replicate rays.length 0
    ∧ (forward_ ctx training rays).comp_rgb = List.replicate rays.length ctx.bg
    ∧ (forward_ ctx training rays).rays_valid = List.replicate rays.length false
    ∧ (forward_ ctx training rays).opacity.length = rays.length
    ∧ (forward_ ctx training rays).comp_rgb.length = rays.length
    ∧ (forward_ ctx training rays).depth.length = rays.length := by
  obtain ⟨hs, hw, ho, hd, hc⟩ := pipeline_empty ctx rays hempty halpha
  have hcomp : (forward_ ctx training rays).comp_rgb
      = List.replicate rays.length ctx.bg := by
    show List.zipWith (fun c o => c + smul3 (1 - o) ctx.bg)
      (pipelineCompRgb0 ctx rays) (pipelineOpacity ctx rays) = _
    rw [hc, ho, zipWith_replicate]
    have hbg : (0 : Vec3) + smul3 (1 - 0) ctx.bg = ctx.bg := by
      rw [show (1 : ℚ) - 0 = 1 by norm_num, smul3_one_left, zero_add]
    rw [hbg]
  have hvalid : (forward_ ctx training rays).rays_valid
      = List.replicate rays.length false := by
    show (pipelineOpacity ctx rays).map (fun o => decide (0 < o)) = _
    rw [ho, List.map_replicate, decide_eq_false (by norm_num : ¬(0 : ℚ) < 0)]
  refine ⟨ho, hd, hc, hcomp, hvalid, ?_, ?_, ?_⟩
  · show (pipelineOpacity ctx rays).length = rays.length
    rw [ho, List.length_replicate]
  · rw [hcomp, List.length_replicate]
  · show (pipelineDepth ctx rays).length = rays.length
    rw [hd, List.length_replicate]

/-- Witness for C6: a context whose estimator returns no samples. -/
theorem empty_sample_guard_witness :
    rawSamples ctxWempty [rayW] = []
    ∧ (forward_ ctxWempty false [rayW]).opacity = List.replicate 1 0
    ∧ (forward_ ctxWempty false [rayW]).comp_rgb = List.replicate 1 ctxWempty.bg
    ∧ (forward_ ctxWempty false [rayW]).rays_valid = List.replicate 1 false := by
  have he : rawSamples ctxWempty [rayW] = [] := rfl
  have h := empty_sample_guard ctxWempty false [rayW] he fun d => mul_zero d
  exact ⟨he, h.1, h.2.2.2.1, h.2.2.2.2.1⟩

/-- C7: for every ray `r` of a forward call, opacity is the sum of the
weights of the samples with ray index `r`, depth the weighted sum of their
midpoints, the composited colour the weighted sum of their colours plus
`background * (1 - opacity)`, and the ray is valid exactly when its opacity
is positive. -/
theorem scatter_accumulate_per_ray {F : Type} (ctx : Ctx F) (training : Bool)
    (rays : List Ray) (r : ℕ) (hr : r < rays.length) :
    (forward_ ctx training rays).opacity.getD r 0
      = (((((pipelineSamples ctx rays).map fun s => s.1).zip
            (pipelineWeights ctx rays)).filter
              fun p => p.1 == r).map Prod.snd).sum
    ∧ (forward_ ctx training rays).depth.getD r 0
      = (((((pipelineSamples ctx rays).map fun s => s.1).zip
            (List.zipWith (· * ·) (pipelineWeights ctx rays)
              ((pipelineSamples ctx rays).map sampleMid))).filter
                fun p => p.1 == r).map Prod.snd).sum
    ∧ (forward_ ctx training rays).comp_rgb.getD r (0, 0, 0)
      = (((((pipelineSamples ctx rays).map fun s => s.1).zip
            (List.zipWith smul3 (pipelineWeights ctx rays)
              ((pipelineSamples ctx rays).map (sampleRgb ctx rays)))).filter
                fun p => p.1 == r).map Prod.snd).sum
        + smul3 (1 - (forward_ ctx training rays).opacity.getD r 0) ctx.bg
    ∧ (forward_ ctx training rays).rays_valid.getD r false
      = decide (0 < (forward_ ctx training rays).opacity.getD r 0) := by
  refine ⟨?_, ?_, ?_, ?_⟩
  · exact accumulate_getD _ rays.length r hr
  · exact accumulate_getD _ rays.length r hr
  · show (List.zipWith (fun c o => c + smul3 (1 - o) ctx.bg)
        (pipelineCompRgb0 ctx rays) (pipelineOpacity ctx rays)).getD r (0, 0, 0)
      = _
    rw [getD_zipWith _ _ _ r (0, 0, 0) 0 (0, 0, 0)
        (by unfold pipelineCompRgb0; rw [length_accumulate]; exact hr)
        (by unfold pipelineOpacity; rw [length_accumulate]; exact hr)]
    rw [show (pipelineCompRgb0 ctx rays).getD r (0, 0, 0)
        = (pipelineCompRgb0 ctx rays).getD r (0 : Vec3) from rfl]
    unfold pipelineCompRgb0
    rw [accumulate_getD _ rays.length r hr]
    rfl
  · show ((pipelineOpacity ctx rays).map fun o => decide (0 < o)).getD r false
      = _
    rw [getD_map _ _ r 0 false
      (by unfold pipelineOpacity; rw [length_accumulate]; exact hr)]
    rfl

/-- Witness for C7 at a one-ray batch with one sample. -/
theorem scatter_accumulate_per_ray_witness :
    (forward_ ctxW false [rayW]).opacity.getD 0 0
      = (((((pipelineSamples ctxW [rayW]).map fun s => s.1).zip
            (pipelineWeights ctxW [rayW])).filter
              fun p => p.1 == 0).map Prod.snd).sum
    ∧ (forward_ ctxW false [rayW]).rays_valid.getD 0 false
      = decide (0 < (forward_ ctxW false [rayW]).opacity.getD 0 0) := by
  have h := scatter_accumulate_per_ray ctxW false [rayW] 0 (by norm_num)
  exact ⟨h.1, h.2.2.2⟩

/-- C8: outside training, `forward` chunks the batch by `config.ray_chunk`
and concatenates the per-chunk results; for any positive chunk size this
produces exactly the non-training output fields of a single unchunked pass
(given the external alpha model's contract `alpha(d, 0) = 0`); in training
mode `forward` is a single unchunked `forward_` call. -/
theorem chunked_forward_equiv {F : Type} (ctx : Ctx F) (rays : List Ray)
    (hk : 0 < ctx.cfg.ray_chunk) (halpha : ∀ d, ctx.alphaFn d 0 = 0) :
    ((forward ctx false rays).comp_rgb = (forward_ ctx false rays).comp_rgb
    ∧ (forward ctx false rays).opacity = (forward_ ctx false rays).opacity
    ∧ (forward ctx false rays).depth = (forward_ ctx false rays).depth
    ∧ (forward ctx false rays).rays_valid = (forward_ ctx false rays).rays_valid)
    ∧ forward ctx true rays = forward_ ctx true rays := by
  refine ⟨?_, by simp [forward]⟩
  have hfw : forward ctx false rays = chunk_batch ctx ctx.cfg.ray_chunk rays := by
    simp [forward]
  rw [hfw]
  unfold chunk_batch
  obtain ⟨jo, jd, jc, jv⟩ :=
    foldr_joinOut ((chunkList ctx.cfg.ray_chunk rays).map (forward_ ctx false))
  refine ⟨?_, ?_, ?_, ?_⟩
  · rw [jc, List.map_map]
    have hstep : (chunkList ctx.cfg.ray_chunk rays).map
          (RenderOut.comp_rgb ∘ forward_ ctx false)
        = (chunkList ctx.cfg.ray_chunk rays).map (List.map (rayCompRgb ctx)) :=
      List.map_congr_left fun c _ => (forward_fields_map ctx false c halpha).2.2.1
    rw [hstep, ← List.map_flatten, chunkList_flatten _ hk]
    exact ((forward_fields_map ctx false rays halpha).2.2.1).symm
  · rw [jo, List.map_map]
    have hstep : (chunkList ctx.cfg.ray_chunk rays).map
          (RenderOut.opacity ∘ forward_ ctx false)
        = (chunkList ctx.cfg.ray_chunk rays).map (List.map (rayOpacity ctx)) :=
      List.map_congr_left fun c _ => (forward_fields_map ctx false c halpha).1
    rw [hstep, ← List.map_flatten, chunkList_flatten _ hk]
    exact ((forward_fields_map ctx false rays halpha).1).symm
  · rw [jd, List.map_map]
    have hstep : (chunkList ctx.cfg.ray_chunk rays).map
          (RenderOut.depth ∘ forward_ ctx false)
        = (chunkList ctx.cfg.ray_chunk rays).map (List.map (rayDepth ctx)) :=
      List.map_congr_left fun c _ => (forward_fields_map ctx false c halpha).2.1
    rw [hstep, ← List.map_flatten, chunkList_flatten _ hk]
    exact ((forward_fields_map ctx false rays halpha).2.1).symm
  · rw [jv, List.map_map]
    have hstep : (chunkList ctx.cfg.ray_chunk rays).map
          (RenderOut.rays_valid ∘ forward_ ctx false)
        = (chunkList ctx.cfg.ray_chunk rays).map
            (List.map fun ray => decide (0 < rayOpacity ctx ray)) :=
      List.map_congr_left fun c _ => (forward_fields_map ctx false c halpha).2.2.2
    rw [hstep, ← List.map_flatten, chunkList_flatten _ hk]
    exact ((forward_fields_map ctx false rays halpha).2.2.2).symm

/-- Witness for C8: three rays, chunk size 2. -/
theorem chunked_forward_equiv_witness :
    (forward ctxW8 false raysW3).opacity = (forward_ ctxW8 false raysW3).opacity
    ∧ (forward ctxW8 false raysW3).comp_rgb
      = (forward_ ctxW8 false raysW3).comp_rgb
    ∧ forward ctxW8 true raysW3 = forward_ ctxW8 true raysW3 := by
  have h := chunked_forward_equiv ctxW8 raysW3 (by norm_num [ctxW8])
    fun d => mul_zero d
  exact ⟨h.1.2.1, h.1.1, h.2⟩

/-- C9: every colour produced by the export path is clamped to `[0,1]`
componentwise, while the rendering forward pass uses the texture output
unclamped: with a texture returning `(2,2,2)` (outside `[0,1]`) the composited
colour of a forward pass is `(2,2,2)` itself. -/
theorem texture_clamped_only_at_export {F : Type} (geometry : Vec3 → ℚ × F)
    (texture : F → Vec3 → Vec3) (v_pos : List Vec3) (k : ℕ) (c : Vec3)
    (hc : c ∈ (export_v_rgb geometry texture v_pos true k).getD []) :
    (0 ≤ c.1 ∧ c.1 ≤ 1 ∧ 0 ≤ c.2.1 ∧ c.2.1 ≤ 1 ∧ 0 ≤ c.2.2 ∧ c.2.2 ≤ 1)
    ∧ (forward_ ctxW false [rayW]).comp_rgb = [(2, 2, 2)] := by
  constructor
  · have hc' : c ∈ (chunkMapFeature geometry k v_pos).map
        fun f => clamp01v (texture f (0, 0, -1)) := by
      simpa [export_v_rgb] using hc
    obtain ⟨f, _, rfl⟩ := List.mem_map.mp hc'
    refine ⟨le_max_left _ _, max_le (by norm_num) (min_le_left _ _),
      le_max_left _ _, max_le (by norm_num) (min_le_left _ _),
      le_max_left _ _, max_le (by norm_num) (min_le_left _ _)⟩
  · simp [forward_, pipelineCompRgb0, pipelineOpacity, pipelineWeights,
      pipelineSamples, rawSamples, raySamples, validate_empty_rays,
      accumulate_along_rays, render_weight_from_density, weightsAux,
      sampleAlpha, sampleDensity, samplePos, sampleRgb, sampleMid, ctxW, rayW,
      perRayArgs, smul3, posAlong, geomW, List.enum, List.enumFrom,
      List.range_succ, List.filter_singleton]

/-- Witness for C9: a clamped export colour and the unclamped forward pass. -/
theorem texture_clamped_only_at_export_witness :
    (((1 : ℚ), (1 : ℚ), (1 : ℚ))
        ∈ (export_v_rgb geomW (fun _ _ => ((2 : ℚ), 2, 2))
            [((0 : ℚ), 0, 0)] true 1).getD [])
    ∧ (0 ≤ (1 : ℚ) ∧ (1 : ℚ) ≤ 1)
    ∧ (forward_ ctxW false [rayW]).comp_rgb = [(2, 2, 2)] := by
  have hm : ((1 : ℚ), (1 : ℚ), (1 : ℚ))
      ∈ (export_v_rgb geomW (fun _ _ => ((2 : ℚ), 2, 2))
          [((0 : ℚ), 0, 0)] true 1).getD [] := by
    simp [export_v_rgb, chunkMapFeature, chunkList, geomW, clamp01v, clamp01]
  have h := texture_clamped_only_at_export geomW (fun _ _ => ((2 : ℚ), 2, 2))
    [((0 : ℚ), 0, 0)] 1 (1, 1, 1) hm
  exact ⟨hm, ⟨h.1.1, h.1.2.1⟩, h.2⟩

/-- C10: with `export_vertex_color` enabled, the per-vertex export colours
are computed with the fixed synthetic view direction `(0, 0, -1)` for every
vertex — the result depends on no camera or ray direction at all. -/
theorem export_viewdir_fixed {F : Type} (geometry : Vec3 → ℚ × F)
    (texture : F → Vec3 → Vec3) (v_pos : List Vec3) (k : ℕ) (hk : 0 < k) :
    export_v_rgb geometry texture v_pos true k
      = some (v_pos.map fun v => clamp01v (texture (geometry v).2 (0, 0, -1))) := by
  have hfeat : chunkMapFeature geometry k v_pos
      = v_pos.map fun v => (geometry v).2 := by
    unfold chunkMapFeature
    rw [← List.map_flatten, chunkList_flatten _ hk]
  show some ((chunkMapFeature geometry k v_pos).map
      fun f => clamp01v (texture f (0, 0, -1))) = _
  rw [hfeat, List.map_map]
  rfl

/-- Witness for C10 at a concrete geometry, texture and vertex list. -/
theorem export_viewdir_fixed_witness :
    export_v_rgb geomW (fun _ d => d) [((0 : ℚ), 0, 0), ((1 : ℚ), 2, 3)] true 1
      = some ([((0 : ℚ), 0, 0), ((1 : ℚ), 2, 3)].map
          fun v => clamp01v ((fun (_ : Unit) (d : Vec3) => d) (geomW v).2
            (0, 0, -1))) :=
  export_viewdir_fixed geomW (fun _ d => d) [((0 : ℚ), 0, 0), ((1 : ℚ), 2, 3)]
    1 (by norm_num)

end NerfModel
